/-
  Verification of the kvk-connect data-synchronization client.

  Shallow embedding of the core logic described in spec.md:
  time-window partitioning, gap/staleness reader queries, the batched
  upsert writer, the paginated fetch loop, the automatic time-window
  resolution and the date-parsing utilities.

  Timestamps are modelled as integers (seconds); the fixed maximum
  window span of 7 days is 604800 seconds.
-/
import Mathlib

namespace KvkConnect

/-! ### Time-window partitioner -/

/-- A half-open time window `[tw_from, tw_to)`. -/
structure TimeWindow where
  tw_from : Int
  tw_to : Int
deriving DecidableEq

/-- Fixed maximum window span: 7 days, in seconds. -/
def MAX_SPAN : Int := 604800

/-- Fuel-indexed partitioning loop; the fuel bounds the number of
iterations and is always instantiated large enough. -/
def gts_fuel : Nat → Int → Int → List TimeWindow
  | 0, _, _ => []
  | fuel + 1, f, t =>
    if f < t then
      TimeWindow.mk f (min (f + MAX_SPAN) t) :: gts_fuel fuel (min (f + MAX_SPAN) t) t
    else []

/-- Modelled from the spec: the function `get_timeselector` of
`kvk_connect/utils/tools.py` is not present under the sources (only its
tests are).  Per spec 4.1: starting at `from`, repeatedly emit
`[cursor, min(cursor + S, to))` and advance the cursor to the emitted
window's end; `to <= from` yields the empty sequence. -/
def get_timeselector (f t : Int) : List TimeWindow :=
  gts_fuel (t - f).toNat f t

/-! ### Record reader (basisprofiel_reader.py) -/

/-- A row of the signal table. -/
structure Signaal where
  sid : String
  kvknummer : String
  vestigingsnummer : Option String
  timestamp : Int
  signaal_type : String
deriving DecidableEq

/-- A row of the base-profile table, as far as the reader queries see it. -/
structure BasisProfielRow where
  kvk_nummer : String
  last_updated : Int
deriving DecidableEq

def hasProfile (profs : List BasisProfielRow) (k : String) : Bool :=
  profs.any (fun p => p.kvk_nummer == k)

/-- The distinct signal keys that have no base-profile row, in the
store's result order: the SELECT DISTINCT ... LEFT OUTER JOIN ... WHERE
basisprofiel.kvk_nummer IS NULL part of `get_missing_kvk_nummers`. -/
def missing_matching (sigs : List Signaal) (profs : List BasisProfielRow) : List String :=
  ((sigs.map (fun s => s.kvknummer)).filter (fun k => !(hasProfile profs k))).dedup

/-- The list the query hands to `random.sample`: the SQL LIMIT is
applied before any randomization. -/
def missing_pool (sigs : List Signaal) (profs : List BasisProfielRow) (limit : Nat) :
    List String :=
  (missing_matching sigs profs).take limit

/-- `get_missing_kvk_nummers`: `sample` models
`random.sample(l, min(limit, len(l)))`; since `len(l) <= limit` holds for
the pool, that call returns a permutation of its input. -/
def get_missing_kvk_nummers (sigs : List Signaal) (profs : List BasisProfielRow)
    (limit : Nat) (sample : List String → List String) : List String :=
  sample (missing_pool sigs profs limit)

/-- A key is missing iff some signal carries it and no base-profile row does. -/
def isMissingKey (sigs : List Signaal) (profs : List BasisProfielRow) (k : String) : Prop :=
  (∃ s ∈ sigs, s.kvknummer = k) ∧ ∀ p ∈ profs, p.kvk_nummer ≠ k

/-- The distinct keys of signals that join a base-profile row with
strictly older `last_updated` and carry no `vestigingsnummer`:
the SELECT DISTINCT ... JOIN ... WHERE part of `get_outdated_kvk_nummers`. -/
def outdated_matching (sigs : List Signaal) (profs : List BasisProfielRow) : List String :=
  ((sigs.filter (fun s =>
      s.vestigingsnummer == none &&
      profs.any (fun p =>
        p.kvk_nummer == s.kvknummer && decide (p.last_updated < s.timestamp)))).map
    (fun s => s.kvknummer)).dedup

/-- `get_outdated_kvk_nummers` with its LIMIT. -/
def get_outdated_kvk_nummers (sigs : List Signaal) (profs : List BasisProfielRow)
    (limit : Nat) : List String :=
  (outdated_matching sigs profs).take limit

/-- A key is outdated iff a no-vestigingsnummer signal for it is strictly
newer than a base-profile row for it. -/
def isOutdatedKey (sigs : List Signaal) (profs : List BasisProfielRow) (k : String) : Prop :=
  ∃ s ∈ sigs, s.kvknummer = k ∧ s.vestigingsnummer = none ∧
    ∃ p ∈ profs, p.kvk_nummer = k ∧ p.last_updated < s.timestamp

/-! ### Automatic time-window resolution (apps/mutatie-reader/main.py) -/

/-- `resolve_time_window_auto`: `to = now - 1 minute`; `from` is the
repository's last signal timestamp when one exists, else `to - 1 day`. -/
def resolve_time_window_auto (repo_last : Option Int) (now : Int) : Int × Int :=
  let to_time := now - 60
  let from_time :=
    match repo_last with
    | some ts => ts
    | none => to_time - 86400
  (from_time, to_time)

/-! ### Paginated fetch loop (apps/mutatie-reader/main.py) -/

/-- A mutation-API page payload; `signalen = none` models a payload
object without the signal list (the `hasattr` check fails). -/
structure MutatiesAPI where
  pagina : Nat
  signalen : Option (List Signaal)
  totaal : Nat
  totaal_paginas : Nat

/-- The records contributed by one page response after the first:
an absent response or one without a signal list contributes nothing. -/
def pageRecords (resp : Option MutatiesAPI) : List Signaal :=
  match resp with
  | some nxt =>
    match nxt.signalen with
    | some l => l
    | none => []
  | none => []

/-- Sequential traversal of the given page numbers. -/
def fetch_pages (client : Nat → Option MutatiesAPI) : List Nat → List Signaal
  | [] => []
  | p :: rest => pageRecords (client p) ++ fetch_pages client rest

/-- `fetch_all_mutaties`: page 1 is fetched first and must expose the
signal list (otherwise the Python code raises before yielding, modelled
as `none`); pages 2..N are then fetched in ascending order. -/
def fetch_all_mutaties (client : Nat → Option MutatiesAPI) : Option (List Signaal) :=
  match client 1 with
  | none => none
  | some first =>
    match first.signalen with
    | none => none
    | some l1 => some (l1 ++ fetch_pages client (List.range' 2 (first.totaal_paginas - 1)))

/-! ### Batched writer -/

/-- The domain record handed to the writer (representative fields). -/
structure BasisProfielDomain where
  kvk_nummer : String
  naam : Option String
  rechtsvorm : Option String
  totaal_werkzame_personen : Option Nat
deriving DecidableEq

/-- A persisted base-profile row: the domain fields plus the
writer-stamped `last_updated`. -/
structure BPRow where
  kvk_nummer : String
  naam : Option String
  rechtsvorm : Option String
  totaal_werkzame_personen : Option Nat
  last_updated : Int
deriving DecidableEq

def toRow (rec : BasisProfielDomain) (now : Int) : BPRow :=
  ⟨rec.kvk_nummer, rec.naam, rec.rechtsvorm, rec.totaal_werkzame_personen, now⟩

/-- Upsert one row into a keyed row list: overwrite the rows sharing its
key if any, else append. -/
def upsertRow (rows : List BPRow) (r : BPRow) : List BPRow :=
  if rows.any (fun x => x.kvk_nummer == r.kvk_nummer) then
    rows.map (fun x => if x.kvk_nummer == r.kvk_nummer then r else x)
  else rows ++ [r]

/-- Committing a staged batch: upsert every pending row into the store. -/
def upsertAll (store : List BPRow) (pending : List BPRow) : List BPRow :=
  pending.foldl upsertRow store

/-- Modelled from the spec: `BasisProfielWriter` of
`kvk_connect/db/basisprofiel_writer.py` is not present under the sources
(only its tests are).  `session = none` models `_session is None`;
`some pending` holds the staged, not yet committed rows.  Per the
repository's tests, `wcount` (`_count`) increments on every add and is
not reset when a batch commits. -/
structure BasisProfielWriter where
  batch_size : Nat
  wcount : Nat
  session : Option (List BPRow)
deriving DecidableEq

def mkWriter (batch_size : Nat) : BasisProfielWriter :=
  ⟨batch_size, 0, none⟩

/-- Scope entry: open a session with an empty staged batch. -/
def enterScope (w : BasisProfielWriter) : BasisProfielWriter :=
  { w with session := some [], wcount := 0 }

/-- Modelled from the spec and the writer's tests: `add` stages an
upsert with `last_updated` stamped to `now`, increments the counter, and
commits the staged batch whenever the counter reaches a positive
multiple of `batch_size` (the tests show the counter keeps growing past
`batch_size`, so the trigger is modular, not a reset). -/
def BasisProfielWriter.add (store : List BPRow) (w : BasisProfielWriter)
    (rec : BasisProfielDomain) (now : Int) :
    Except String (List BPRow × BasisProfielWriter) :=
  match w.session with
  | none => Except.error "Session not initialized"
  | some pending =>
    let pending' := upsertRow pending (toRow rec now)
    let count' := w.wcount + 1
    if w.batch_size ≠ 0 ∧ count' % w.batch_size = 0 then
      Except.ok (upsertAll store pending', { w with wcount := count', session := some [] })
    else
      Except.ok (store, { w with wcount := count', session := some pending' })

/-- `add` as a total transition: on error the store and writer are unchanged. -/
def tryAdd (store : List BPRow) (w : BasisProfielWriter)
    (rec : BasisProfielDomain) (now : Int) :
    List BPRow × BasisProfielWriter × Bool :=
  match BasisProfielWriter.add store w rec now with
  | Except.ok (s', w') => (s', w', true)
  | Except.error _ => (store, w, false)

/-- `flush`: commit whatever is staged, leaving the session open. -/
def BasisProfielWriter.flush (store : List BPRow) (w : BasisProfielWriter) :
    Except String (List BPRow × BasisProfielWriter) :=
  match w.session with
  | none => Except.error "Session not initialized"
  | some pending => Except.ok (upsertAll store pending, { w with session := some [] })

/-- Scope exit: on an error path the staged rows are rolled back, else
they are committed; either way the session is closed. -/
def exitScope (store : List BPRow) (w : BasisProfielWriter) (err : Bool) :
    List BPRow × BasisProfielWriter :=
  match w.session with
  | none => (store, w)
  | some pending =>
    if err then (store, { w with session := none })
    else (upsertAll store pending, { w with session := none })

/-- A sequence of adds (each with its stamp time) inside one scope. -/
def addAll (store : List BPRow) (w : BasisProfielWriter)
    (recs : List (BasisProfielDomain × Int)) : List BPRow × BasisProfielWriter :=
  recs.foldl
    (fun acc rt =>
      let r := tryAdd acc.1 acc.2 rt.1 rt.2
      (r.1, r.2.1))
    (store, w)

def rowKeys (rows : List BPRow) : List String :=
  rows.map (fun r => r.kvk_nummer)

def getRow (k : String) (rows : List BPRow) : Option BPRow :=
  rows.find? (fun r => r.kvk_nummer == k)

/-- The rows visible once the staged batch lands (what a flush or clean
exit would leave in the store). -/
def effectiveRows (store : List BPRow) (w : BasisProfielWriter) : List BPRow :=
  upsertAll store (w.session.getD [])

/-! ### Date utilities -/

def isSpaceChar (c : Char) : Bool :=
  c == ' ' || c == '\t' || c == '\n' || c == '\r'

/-- Python's str.strip over a character list. -/
def trimChars (l : List Char) : List Char :=
  ((l.dropWhile isSpaceChar).reverse.dropWhile isSpaceChar).reverse

def digitVal (c : Char) : Nat := c.toNat - 48

def toDigitChar : Nat → Char
  | 0 => '0'
  | 1 => '1'
  | 2 => '2'
  | 3 => '3'
  | 4 => '4'
  | 5 => '5'
  | 6 => '6'
  | 7 => '7'
  | 8 => '8'
  | 9 => '9'
  | _ + 10 => '?'

/-- A calendar date value (`datetime.date`). -/
structure KvkDate where
  year : Nat
  month : Nat
  day : Nat
deriving DecidableEq

def isLeapYear (y : Nat) : Bool :=
  (y % 4 == 0 && y % 100 != 0) || y % 400 == 0

def daysInMonth (y m : Nat) : Nat :=
  if m = 2 then (if isLeapYear y then 29 else 28)
  else if m = 4 ∨ m = 6 ∨ m = 9 ∨ m = 11 then 30
  else 31

/-- Validity of a `datetime.date(y, m, d)` construction. -/
def validDate (y m d : Nat) : Bool :=
  decide (1 ≤ y ∧ y ≤ 9999 ∧ 1 ≤ m ∧ m ≤ 12 ∧ 1 ≤ d ∧ d ≤ daysInMonth y m)

/-- The shape dispatch of the date parser: a DD-MM-YYYY shaped string or
an 8-digit YYYYMMDD string (month 00 and day 00 default to 1); anything
else yields no value. -/
def parseChars : List Char → Option KvkDate
  | [d1, d2, c1, m1, m2, c2, y1, y2, y3, y4] =>
    if c1 = '-' ∧ c2 = '-' ∧
        (d1.isDigit && d2.isDigit && m1.isDigit && m2.isDigit &&
          y1.isDigit && y2.isDigit && y3.isDigit && y4.isDigit) = true then
      let d := 10 * digitVal d1 + digitVal d2
      let m := 10 * digitVal m1 + digitVal m2
      let y := 1000 * digitVal y1 + 100 * digitVal y2 + 10 * digitVal y3 + digitVal y4
      if validDate y m d then some ⟨y, m, d⟩ else none
    else none
  | [y1, y2, y3, y4, m1, m2, d1, d2] =>
    if y1.isDigit && y2.isDigit && y3.isDigit && y4.isDigit &&
        m1.isDigit && m2.isDigit && d1.isDigit && d2.isDigit then
      let y := 1000 * digitVal y1 + 100 * digitVal y2 + 10 * digitVal y3 + digitVal y4
      let m0 := 10 * digitVal m1 + digitVal m2
      let d0 := 10 * digitVal d1 + digitVal d2
      let m := if m0 = 0 then 1 else m0
      let d := if d0 = 0 then 1 else d0
      if validDate y m d then some ⟨y, m, d⟩ else none
    else none
  | _ => none

/-- Modelled from the spec: `parse_kvk_datum` of
`kvk_connect/utils/tools.py` is not present under the sources (only its
tests are).  `None`, empty and literal "None" inputs yield no value;
otherwise the trimmed text is parsed as DD-MM-YYYY or YYYYMMDD with
unknown month/day parts defaulted to 1 and invalid dates rejected. -/
def parse_kvk_datum : Option String → Option KvkDate
  | none => none
  | some raw =>
    let t := trimChars raw.data
    if t = [] ∨ t = "None".data then none
    else parseChars t

def pad2 (n : Nat) : List Char :=
  [toDigitChar (n / 10), toDigitChar (n % 10)]

def pad4 (n : Nat) : List Char :=
  [toDigitChar (n / 1000), toDigitChar (n / 100 % 10), toDigitChar (n / 10 % 10),
    toDigitChar (n % 10)]

/-- The DD-MM-YYYY rendering of a date. -/
def fmtDDMMYYYY (y m d : Nat) : String :=
  String.mk (pad2 d ++ ['-'] ++ pad2 m ++ ['-'] ++ pad4 y)

/-- The YYYYMMDD rendering of a date. -/
def fmtYYYYMMDD (y m d : Nat) : String :=
  String.mk (pad4 y ++ pad2 m ++ pad2 d)

/-- Modelled from the spec: `formatteer_datum` of
`kvk_connect/utils/tools.py` is not present under the sources (only its
tests are).  `None`, empty and literal "None" yield no value; an all-zero
8-digit input yields no value; a well-formed YYYYMMDD input (month/day 00
defaulted to 1) is rendered as DD-MM-YYYY; anything else is returned
unchanged. -/
def formatteer_datum : Option String → Option String
  | none => none
  | some raw =>
    let t := trimChars raw.data
    if t = [] ∨ t = "None".data then none
    else
      match t with
      | [y1, y2, y3, y4, m1, m2, d1, d2] =>
        if y1.isDigit && y2.isDigit && y3.isDigit && y4.isDigit &&
            m1.isDigit && m2.isDigit && d1.isDigit && d2.isDigit then
          let y := 1000 * digitVal y1 + 100 * digitVal y2 + 10 * digitVal y3 + digitVal y4
          let m0 := 10 * digitVal m1 + digitVal m2
          let d0 := 10 * digitVal d1 + digitVal d2
          if y = 0 ∧ m0 = 0 ∧ d0 = 0 then none
          else
            let m := if m0 = 0 then 1 else m0
            let d := if d0 = 0 then 1 else d0
            if validDate y m d then some (fmtDDMMYYYY y m d) else some raw
        else some raw
      | _ => some raw

/-! ### Theorems -/

theorem gts_fuel_congr :
    ∀ n m f t : _, (t - f).toNat ≤ n → (t - f).toNat ≤ m →
      gts_fuel n f t = gts_fuel m f t := by
  intro n
  induction n with
  | zero =>
    intro m f t hn _
    have hft : ¬ f < t := by omega
    cases m with
    | zero => rfl
    | succ m => simp [gts_fuel, hft]
  | succ n ih =>
    intro m f t hn hm
    cases m with
    | zero =>
      have hft : ¬ f < t := by omega
      simp [gts_fuel, hft]
    | succ m =>
      by_cases hft : f < t
      · simp only [gts_fuel, if_pos hft]
        have hc : (t - min (f + MAX_SPAN) t).toNat ≤ n := by
          have : (0:Int) < MAX_SPAN := by decide
          omega
        have hc' : (t - min (f + MAX_SPAN) t).toNat ≤ m := by
          have : (0:Int) < MAX_SPAN := by decide
          omega
        rw [ih m (min (f + MAX_SPAN) t) t hc hc']
      · simp [gts_fuel, hft]

/-- One-step unfolding of `get_timeselector`. -/
theorem get_timeselector_eq (f t : Int) :
    get_timeselector f t =
      if f < t then
        TimeWindow.mk f (min (f + MAX_SPAN) t) ::
          get_timeselector (min (f + MAX_SPAN) t) t
      else [] := by
  by_cases hft : f < t
  · have h1 : (t - f).toNat = ((t - f).toNat - 1) + 1 := by omega
    rw [get_timeselector, h1]
    simp only [gts_fuel, if_pos hft]
    rw [get_timeselector]
    congr 1
    apply gts_fuel_congr
    · have : (0:Int) < MAX_SPAN := by decide
      omega
    · exact le_refl _
  · rw [get_timeselector]
    cases hn : (t - f).toNat with
    | zero => simp [gts_fuel, hft]
    | succ n => simp [gts_fuel, hft]

theorem MAX_SPAN_pos : (0:Int) < MAX_SPAN := by decide

theorem get_timeselector_of_le (f t : Int) (h : t ≤ f) : get_timeselector f t = [] := by
  rw [get_timeselector_eq, if_neg (by omega)]

theorem gts_cover_aux (t : Int) :
    ∀ (n : Nat) (f : Int), (t - f).toNat ≤ n → ∀ x : Int,
      ((∃ w ∈ get_timeselector f t, w.tw_from ≤ x ∧ x < w.tw_to) ↔ (f ≤ x ∧ x < t)) := by
  intro n
  induction n with
  | zero =>
    intro f hf x
    have hft : ¬ f < t := by omega
    rw [get_timeselector_eq, if_neg hft]
    constructor
    · rintro ⟨w, hw, _⟩
      exact absurd hw (List.not_mem_nil w)
    · intro h
      omega
  | succ n ih =>
    intro f hf x
    by_cases hft : f < t
    · rw [get_timeselector_eq, if_pos hft]
      have hnext : (t - min (f + MAX_SPAN) t).toNat ≤ n := by
        have := MAX_SPAN_pos
        omega
      constructor
      · rintro ⟨w, hw, hx1, hx2⟩
        rcases List.mem_cons.mp hw with h | h
        · subst h
          simp only at hx1 hx2
          omega
        · have := (ih (min (f + MAX_SPAN) t) hnext x).mp ⟨w, h, hx1, hx2⟩
          have := MAX_SPAN_pos
          omega
      · intro hx
        by_cases hx' : x < min (f + MAX_SPAN) t
        · refine ⟨TimeWindow.mk f (min (f + MAX_SPAN) t), List.mem_cons_self _ _, ?_, ?_⟩
          · exact hx.1
          · exact hx'
        · have := (ih (min (f + MAX_SPAN) t) hnext x).mpr ⟨by omega, hx.2⟩
          rcases this with ⟨w, hw, hxw⟩
          exact ⟨w, List.mem_cons_of_mem _ hw, hxw⟩
    · rw [get_timeselector_eq, if_neg hft]
      constructor
      · rintro ⟨w, hw, _⟩
        exact absurd hw (List.not_mem_nil w)
      · intro h
        omega

theorem gts_bounds_aux (t : Int) :
    ∀ (n : Nat) (f : Int), (t - f).toNat ≤ n → ∀ w ∈ get_timeselector f t,
      f ≤ w.tw_from ∧ w.tw_to ≤ t ∧ 0 < w.tw_to - w.tw_from ∧
        w.tw_to - w.tw_from ≤ MAX_SPAN := by
  intro n
  induction n with
  | zero =>
    intro f hf w hw
    have hft : ¬ f < t := by omega
    rw [get_timeselector_eq, if_neg hft] at hw
    exact absurd hw (List.not_mem_nil w)
  | succ n ih =>
    intro f hf w hw
    by_cases hft : f < t
    · rw [get_timeselector_eq, if_pos hft] at hw
      have hnext : (t - min (f + MAX_SPAN) t).toNat ≤ n := by
        have := MAX_SPAN_pos
        omega
      rcases List.mem_cons.mp hw with h | h
      · subst h
        simp only
        have := MAX_SPAN_pos
        omega
      · have := ih (min (f + MAX_SPAN) t) hnext w h
        have := MAX_SPAN_pos
        omega
    · rw [get_timeselector_eq, if_neg hft] at hw
      exact absurd hw (List.not_mem_nil w)

theorem gts_pairwise_aux (t : Int) :
    ∀ (n : Nat) (f : Int), (t - f).toNat ≤ n →
      List.Pairwise (fun a b => a.tw_to ≤ b.tw_from) (get_timeselector f t) := by
  intro n
  induction n with
  | zero =>
    intro f hf
    have hft : ¬ f < t := by omega
    rw [get_timeselector_eq, if_neg hft]
    exact List.Pairwise.nil
  | succ n ih =>
    intro f hf
    by_cases hft : f < t
    · rw [get_timeselector_eq, if_pos hft]
      have hnext : (t - min (f + MAX_SPAN) t).toNat ≤ n := by
        have := MAX_SPAN_pos
        omega
      refine List.Pairwise.cons ?_ (ih (min (f + MAX_SPAN) t) hnext)
      intro w hw
      have := gts_bounds_aux t n (min (f + MAX_SPAN) t) hnext w hw
      simp only
      omega
    · rw [get_timeselector_eq, if_neg hft]
      exact List.Pairwise.nil

theorem gts_chain_aux (t : Int) :
    ∀ (n : Nat) (f : Int), (t - f).toNat ≤ n →
      List.Chain' (fun a b => a.tw_to = b.tw_from) (get_timeselector f t) := by
  intro n
  induction n with
  | zero =>
    intro f hf
    have hft : ¬ f < t := by omega
    rw [get_timeselector_eq, if_neg hft]
    exact List.chain'_nil
  | succ n ih =>
    intro f hf
    by_cases hft : f < t
    · rw [get_timeselector_eq, if_pos hft]
      have hnext : (t - min (f + MAX_SPAN) t).toNat ≤ n := by
        have := MAX_SPAN_pos
        omega
      rw [List.chain'_cons']
      refine ⟨?_, ih (min (f + MAX_SPAN) t) hnext⟩
      intro b hb
      by_cases hct : min (f + MAX_SPAN) t < t
      · rw [get_timeselector_eq, if_pos hct] at hb
        simp only [List.head?_cons, Option.mem_def, Option.some.injEq] at hb
        subst hb
        rfl
      · rw [get_timeselector_eq, if_neg hct] at hb
        simp at hb
    · rw [get_timeselector_eq, if_neg hft]
      exact List.chain'_nil

theorem gts_dropLast_aux (t : Int) :
    ∀ (n : Nat) (f : Int), (t - f).toNat ≤ n →
      ∀ w ∈ (get_timeselector f t).dropLast, w.tw_to - w.tw_from = MAX_SPAN := by
  intro n
  induction n with
  | zero =>
    intro f hf w hw
    have hft : ¬ f < t := by omega
    rw [get_timeselector_eq, if_neg hft] at hw
    exact absurd hw (List.not_mem_nil w)
  | succ n ih =>
    intro f hf w hw
    by_cases hft : f < t
    · rw [get_timeselector_eq, if_pos hft] at hw
      have hnext : (t - min (f + MAX_SPAN) t).toNat ≤ n := by
        have := MAX_SPAN_pos
        omega
      cases hrest : get_timeselector (min (f + MAX_SPAN) t) t with
      | nil =>
        rw [hrest] at hw
        exact absurd hw (List.not_mem_nil w)
      | cons r rs =>
        have hct : min (f + MAX_SPAN) t < t := by
          by_contra hc
          rw [get_timeselector_eq, if_neg hc] at hrest
          exact List.cons_ne_nil r rs hrest.symm
        have hspan : f + MAX_SPAN < t := by omega
        rw [hrest] at hw
        rw [List.dropLast_cons₂] at hw
        rcases List.mem_cons.mp hw with h | h
        · subst h
          simp only
          omega
        · rw [← hrest] at h
          exact ih (min (f + MAX_SPAN) t) hnext w h
    · rw [get_timeselector_eq, if_neg hft] at hw
      exact absurd hw (List.not_mem_nil w)

theorem gts_last_aux (t : Int) :
    ∀ (n : Nat) (f : Int), (t - f).toNat ≤ n → f < t →
      ∀ w : TimeWindow, (get_timeselector f t).getLast? = some w → w.tw_to = t := by
  intro n
  induction n with
  | zero =>
    intro f hf hft
    omega
  | succ n ih =>
    intro f hf hft w hw
    rw [get_timeselector_eq, if_pos hft] at hw
    have hnext : (t - min (f + MAX_SPAN) t).toNat ≤ n := by
      have := MAX_SPAN_pos
      omega
    cases hrest : get_timeselector (min (f + MAX_SPAN) t) t with
    | nil =>
      have hct : ¬ min (f + MAX_SPAN) t < t := by
        by_contra hc
        rw [get_timeselector_eq, if_pos hc] at hrest
        exact List.cons_ne_nil _ _ hrest
      rw [hrest, List.getLast?_singleton] at hw
      have hw' := Option.some.inj hw
      subst hw'
      simp only
      omega
    | cons r rs =>
      have hct : min (f + MAX_SPAN) t < t := by
        by_contra hc
        rw [get_timeselector_eq, if_neg hc] at hrest
        exact List.cons_ne_nil r rs hrest.symm
      rw [hrest, List.getLast?_cons_cons] at hw
      refine ih (min (f + MAX_SPAN) t) hnext hct w ?_
      rw [hrest]
      exact hw

/-- C1: for every pair of timestamps and the fixed maximum span
`MAX_SPAN`, `get_timeselector` returns, when `from < to`, an ordered
earliest-first sequence of contiguous, non-overlapping windows whose
union is exactly `[from, to)`, each window of positive length at most
`MAX_SPAN`, every window except possibly the last of length exactly
`MAX_SPAN`, the first starting at `from` and the last ending at `to`;
and when `to ≤ from` it returns the empty sequence. -/
theorem get_timeselector_correct (f t : Int) :
    (t ≤ f → get_timeselector f t = []) ∧
    (f < t →
      (∀ x : Int, (∃ w ∈ get_timeselector f t, w.tw_from ≤ x ∧ x < w.tw_to) ↔
        (f ≤ x ∧ x < t)) ∧
      List.Chain' (fun a b => a.tw_to = b.tw_from) (get_timeselector f t) ∧
      List.Pairwise (fun a b => a.tw_to ≤ b.tw_from) (get_timeselector f t) ∧
      (∀ w ∈ get_timeselector f t, 0 < w.tw_to - w.tw_from ∧
        w.tw_to - w.tw_from ≤ MAX_SPAN) ∧
      (∀ w ∈ (get_timeselector f t).dropLast, w.tw_to - w.tw_from = MAX_SPAN) ∧
      (get_timeselector f t).head? = some (TimeWindow.mk f (min (f + MAX_SPAN) t)) ∧
      (∀ w : TimeWindow, (get_timeselector f t).getLast? = some w → w.tw_to = t)) := by
  constructor
  · exact get_timeselector_of_le f t
  · intro hft
    refine ⟨gts_cover_aux t (t - f).toNat f (le_refl _), ?_, ?_, ?_, ?_, ?_, ?_⟩
    · exact gts_chain_aux t (t - f).toNat f (le_refl _)
    · exact gts_pairwise_aux t (t - f).toNat f (le_refl _)
    · intro w hw
      have := gts_bounds_aux t (t - f).toNat f (le_refl _) w hw
      exact ⟨this.2.2.1, this.2.2.2⟩
    · exact gts_dropLast_aux t (t - f).toNat f (le_refl _)
    · rw [get_timeselector_eq, if_pos hft]
      rfl
    · exact gts_last_aux t (t - f).toNat f (le_refl _) hft

/-- Witness for C1 at the test's concrete data: 2024-01-01 to 2024-01-10
rendered as seconds 0 and 777600 gives exactly the two windows of the
repository's test, and the inverted range 5 > 3 gives the empty list. -/
theorem get_timeselector_correct_witness :
    ((∃ w ∈ get_timeselector 0 777600, w.tw_from ≤ 86400 ∧ (86400:Int) < w.tw_to) ↔
      ((0:Int) ≤ 86400 ∧ (86400:Int) < 777600)) ∧
    List.Chain' (fun a b => a.tw_to = b.tw_from) (get_timeselector 0 777600) ∧
    get_timeselector 0 777600 = [TimeWindow.mk 0 604800, TimeWindow.mk 604800 777600] ∧
    get_timeselector 5 3 = [] := by
  have h := (get_timeselector_correct 0 777600).2 (by decide)
  refine ⟨h.1 86400, h.2.1, by decide, (get_timeselector_correct 5 3).1 (by decide)⟩

/-- C3 counterexample: with a persisted last-signal timestamp three days
before `now = 0`, the automatic window's `from` is that old timestamp,
not `max(last, now - 1 day)`; in particular it is strictly earlier than
one day before `now`, refuting the claim. -/
theorem resolve_time_window_auto_not_max :
    (resolve_time_window_auto (some (-259200)) 0).1 ≠
      max (-259200) ((0:Int) - 86400) ∧
    (resolve_time_window_auto (some (-259200)) 0).1 < (0:Int) - 86400 := by
  exact ⟨by decide, by decide⟩

/-- C3 (amended): in automatic mode `to = now - 1 minute`; `from` equals
the last persisted signal timestamp whenever one exists (even when that
timestamp is earlier than one day before `now`), and `to - 1 day` when
no signal has been persisted. -/
theorem resolve_time_window_auto_correct (repo_last : Option Int) (now : Int) :
    (resolve_time_window_auto repo_last now).2 = now - 60 ∧
    (∀ ts : Int, repo_last = some ts → (resolve_time_window_auto repo_last now).1 = ts) ∧
    (repo_last = none → (resolve_time_window_auto repo_last now).1 = (now - 60) - 86400) := by
  refine ⟨rfl, ?_, ?_⟩
  · intro ts h
    subst h
    rfl
  · intro h
    subst h
    rfl

/-- Witness for C3 (amended) at concrete inputs. -/
theorem resolve_time_window_auto_correct_witness :
    (resolve_time_window_auto (some 5) 1000).2 = 1000 - 60 ∧
    (resolve_time_window_auto (some 5) 1000).1 = 5 ∧
    (resolve_time_window_auto none 1000).1 = (1000 - 60) - 86400 := by
  exact ⟨(resolve_time_window_auto_correct (some 5) 1000).1,
    (resolve_time_window_auto_correct (some 5) 1000).2.1 5 rfl,
    (resolve_time_window_auto_correct none 1000).2.2 rfl⟩

theorem fetch_pages_eq_flatMap (client : Nat → Option MutatiesAPI) (pages : List Nat) :
    fetch_pages client pages = pages.flatMap (fun p => pageRecords (client p)) := by
  induction pages with
  | nil => rfl
  | cons p rest ih => rw [fetch_pages, List.flatMap_cons, ih]

theorem fetch_pages_skip (client : Nat → Option MutatiesAPI) (p : Nat)
    (hp : pageRecords (client p) = []) :
    ∀ pages : List Nat, fetch_pages client pages = fetch_pages client (pages.erase p) := by
  intro pages
  induction pages with
  | nil => rfl
  | cons q rest ih =>
    rw [List.erase_cons]
    by_cases hq : q = p
    · subst hq
      rw [if_pos (by simp)]
      rw [fetch_pages, hp, List.nil_append]
    · have : (q == p) = false := by
        exact beq_false_of_ne hq
      rw [this]
      simp only [Bool.false_eq_true, if_false]
      rw [fetch_pages, fetch_pages, ih]

/-- C8: when page 1 yields a well-formed payload, `fetch_all_mutaties`
yields page 1's records first and then the records of pages 2..N in
ascending page order; the traversed page list is exactly 2..N in
strictly increasing order, and a page among them whose payload is absent
or carries no signal list contributes nothing while the remaining pages
still contribute (erasing such a page from the traversal changes
nothing). -/
theorem fetch_all_mutaties_correct (client : Nat → Option MutatiesAPI)
    (first : MutatiesAPI) (l1 : List Signaal)
    (h1 : client 1 = some first) (hl : first.signalen = some l1) :
    fetch_all_mutaties client =
      some (l1 ++ (List.range' 2 (first.totaal_paginas - 1)).flatMap
        (fun p => pageRecords (client p))) ∧
    (∀ p : Nat, p ∈ List.range' 2 (first.totaal_paginas - 1) ↔
      (2 ≤ p ∧ p ≤ first.totaal_paginas)) ∧
    List.Pairwise (fun a b => a < b) (List.range' 2 (first.totaal_paginas - 1)) ∧
    (∀ p : Nat, pageRecords (client p) = [] →
      fetch_all_mutaties client =
        some (l1 ++ fetch_pages client
          ((List.range' 2 (first.totaal_paginas - 1)).erase p))) := by
  have hfetch : fetch_all_mutaties client =
      some (l1 ++ fetch_pages client (List.range' 2 (first.totaal_paginas - 1))) := by
    simp only [fetch_all_mutaties, h1, hl]
  refine ⟨?_, ?_, ?_, ?_⟩
  · rw [hfetch, fetch_pages_eq_flatMap]
  · intro p
    rw [List.mem_range']
    constructor
    · rintro ⟨i, hi, hp⟩
      omega
    · intro hp
      exact ⟨p - 2, by omega, by omega⟩
  · exact List.pairwise_lt_range' 2 (first.totaal_paginas - 1) 1 (by omega)
  · intro p hp
    rw [hfetch, fetch_pages_skip client p hp]

/-- Witness for C8: a concrete three-page client whose page 2 carries no
signal list; its records are skipped while page 3's records survive. -/
theorem fetch_all_mutaties_correct_witness :
    fetch_all_mutaties
        (fun p =>
          if p = 1 then
            some (MutatiesAPI.mk 1 (some [Signaal.mk "a" "11111111" none 10 "UPDATE"]) 3 3)
          else if p = 2 then some (MutatiesAPI.mk 2 none 3 3)
          else if p = 3 then
            some (MutatiesAPI.mk 3 (some [Signaal.mk "c" "33333333" none 30 "UPDATE"]) 3 3)
          else none) =
      some [Signaal.mk "a" "11111111" none 10 "UPDATE",
        Signaal.mk "c" "33333333" none 30 "UPDATE"] := by
  have h := (fetch_all_mutaties_correct
    (fun p =>
      if p = 1 then
        some (MutatiesAPI.mk 1 (some [Signaal.mk "a" "11111111" none 10 "UPDATE"]) 3 3)
      else if p = 2 then some (MutatiesAPI.mk 2 none 3 3)
      else if p = 3 then
        some (MutatiesAPI.mk 3 (some [Signaal.mk "c" "33333333" none 30 "UPDATE"]) 3 3)
      else none)
    (MutatiesAPI.mk 1 (some [Signaal.mk "a" "11111111" none 10 "UPDATE"]) 3 3)
    [Signaal.mk "a" "11111111" none 10 "UPDATE"] rfl rfl).1
  rw [h]
  rfl

theorem mem_missing_matching (sigs : List Signaal) (profs : List BasisProfielRow)
    (k : String) :
    k ∈ missing_matching sigs profs ↔ isMissingKey sigs profs k := by
  unfold missing_matching isMissingKey hasProfile
  rw [List.mem_dedup, List.mem_filter, List.mem_map]
  constructor
  · rintro ⟨⟨s, hs, hk⟩, hprof⟩
    refine ⟨⟨s, hs, hk⟩, ?_⟩
    intro p hp hpk
    rw [Bool.not_eq_true', List.any_eq_false] at hprof
    have := hprof p hp
    rw [beq_iff_eq] at this
    exact this hpk
  · rintro ⟨⟨s, hs, hk⟩, hprof⟩
    refine ⟨⟨s, hs, hk⟩, ?_⟩
    rw [Bool.not_eq_true', List.any_eq_false]
    intro p hp
    rw [beq_iff_eq]
    exact hprof p hp

/-- C4 counterexample: with two missing keys in the signal table and
limit 1, the SQL LIMIT is applied before `random.sample`: the pool
handed to the sampler is the first matching key only, so the other
matching key can never be returned no matter how the sample falls, and
every sample is exactly the first-1 list. -/
theorem get_missing_kvk_nummers_not_whole_set :
    missing_matching
        [Signaal.mk "s1" "11111111" none 0 "UPDATE",
          Signaal.mk "s2" "22222222" none 0 "UPDATE"] [] =
      ["11111111", "22222222"] ∧
    missing_pool
        [Signaal.mk "s1" "11111111" none 0 "UPDATE",
          Signaal.mk "s2" "22222222" none 0 "UPDATE"] [] 1 =
      ["11111111"] ∧
    "22222222" ∈ missing_matching
        [Signaal.mk "s1" "11111111" none 0 "UPDATE",
          Signaal.mk "s2" "22222222" none 0 "UPDATE"] [] ∧
    "22222222" ∉ missing_pool
        [Signaal.mk "s1" "11111111" none 0 "UPDATE",
          Signaal.mk "s2" "22222222" none 0 "UPDATE"] [] 1 ∧
    get_missing_kvk_nummers
        [Signaal.mk "s1" "11111111" none 0 "UPDATE",
          Signaal.mk "s2" "22222222" none 0 "UPDATE"] [] 1 (fun l => l) =
      ["11111111"] ∧
    get_missing_kvk_nummers
        [Signaal.mk "s1" "11111111" none 0 "UPDATE",
          Signaal.mk "s2" "22222222" none 0 "UPDATE"] [] 1 (fun l => l.reverse) =
      ["11111111"] := by
  decide

/-- C4 (amended): `get_missing_kvk_nummers` returns at most `limit`
distinct keys, each occurring in the signal table with no base-profile
row; the returned list is a random permutation of the first `limit`
distinct matching keys in the store's result order (the SQL LIMIT is
applied before `random.sample`, so randomization affects order only);
when the whole matching set fits within `limit` it is exactly the
matching set. -/
theorem get_missing_kvk_nummers_correct (sigs : List Signaal)
    (profs : List BasisProfielRow) (limit : Nat)
    (sample : List String → List String)
    (hperm : ∀ l : List String, (sample l).Perm l) :
    (get_missing_kvk_nummers sigs profs limit sample).length ≤ limit ∧
    (get_missing_kvk_nummers sigs profs limit sample).Nodup ∧
    (∀ k ∈ get_missing_kvk_nummers sigs profs limit sample, isMissingKey sigs profs k) ∧
    (get_missing_kvk_nummers sigs profs limit sample).Perm
      (missing_pool sigs profs limit) ∧
    ((missing_matching sigs profs).length ≤ limit →
      ∀ k, isMissingKey sigs profs k →
        k ∈ get_missing_kvk_nummers sigs profs limit sample) := by
  have hp : (get_missing_kvk_nummers sigs profs limit sample).Perm
      (missing_pool sigs profs limit) := hperm _
  have hnodup : (missing_pool sigs profs limit).Nodup :=
    (List.take_sublist _ _).nodup (List.nodup_dedup _)
  refine ⟨?_, ?_, ?_, hp, ?_⟩
  · rw [hp.length_eq]
    exact List.length_take_le _ _
  · exact hnodup.perm hp.symm
  · intro k hk
    have : k ∈ missing_pool sigs profs limit := hp.mem_iff.mp hk
    exact (mem_missing_matching sigs profs k).mp (List.take_subset _ _ this)
  · intro hlen k hk
    rw [hp.mem_iff]
    unfold missing_pool
    rw [List.take_of_length_le hlen]
    exact (mem_missing_matching sigs profs k).mpr hk

/-- Witness for C4 (amended) with the identity permutation as the
sample at a concrete store. -/
theorem get_missing_kvk_nummers_correct_witness :
    (get_missing_kvk_nummers [Signaal.mk "s1" "11111111" none 0 "UPDATE"] [] 10
      (fun l => l)).length ≤ 10 ∧
    "11111111" ∈ get_missing_kvk_nummers [Signaal.mk "s1" "11111111" none 0 "UPDATE"] [] 10
      (fun l => l) := by
  have h := get_missing_kvk_nummers_correct
    [Signaal.mk "s1" "11111111" none 0 "UPDATE"] [] 10 (fun l => l)
    (fun l => List.Perm.refl l)
  refine ⟨h.1, h.2.2.2.2 (by decide) "11111111" ?_⟩
  exact ⟨⟨Signaal.mk "s1" "11111111" none 0 "UPDATE", by decide, rfl⟩, by decide⟩

theorem mem_outdated_matching (sigs : List Signaal) (profs : List BasisProfielRow)
    (k : String) :
    k ∈ outdated_matching sigs profs ↔ isOutdatedKey sigs profs k := by
  unfold outdated_matching isOutdatedKey
  rw [List.mem_dedup, List.mem_map]
  constructor
  · rintro ⟨s, hs, hk⟩
    rw [List.mem_filter] at hs
    rcases hs with ⟨hs, hcond⟩
    rw [Bool.and_eq_true, List.any_eq_true] at hcond
    rcases hcond with ⟨hvest, p, hp, hpcond⟩
    rw [Bool.and_eq_true, beq_iff_eq, decide_eq_true_eq] at hpcond
    rw [beq_iff_eq] at hvest
    exact ⟨s, hs, hk, hvest, p, hp, by rw [hpcond.1, hk], by exact hpcond.2⟩
  · rintro ⟨s, hs, hk, hvest, p, hp, hpk, hlt⟩
    refine ⟨s, ?_, hk⟩
    rw [List.mem_filter]
    refine ⟨hs, ?_⟩
    rw [Bool.and_eq_true, List.any_eq_true]
    refine ⟨by rw [beq_iff_eq]; exact hvest, p, hp, ?_⟩
    rw [Bool.and_eq_true, beq_iff_eq, decide_eq_true_eq]
    exact ⟨by rw [hpk, hk], hlt⟩

/-- C7: every key returned by `get_outdated_kvk_nummers` has a
base-profile row and a strictly newer signal without vestigingsnummer;
when the matching set fits within the limit the returned keys are
exactly the distinct such keys; keys whose signals all carry a
vestigingsnummer are never returned, and keys whose signals are all not
newer than the profile row are never returned. -/
theorem get_outdated_kvk_nummers_correct (sigs : List Signaal)
    (profs : List BasisProfielRow) (limit : Nat) :
    (∀ k ∈ get_outdated_kvk_nummers sigs profs limit, isOutdatedKey sigs profs k) ∧
    ((outdated_matching sigs profs).length ≤ limit →
      ∀ k, isOutdatedKey sigs profs k ↔ k ∈ get_outdated_kvk_nummers sigs profs limit) ∧
    (get_outdated_kvk_nummers sigs profs limit).Nodup ∧
    (∀ k : String,
      (∀ s ∈ sigs, s.kvknummer = k → s.vestigingsnummer ≠ none) →
      k ∉ get_outdated_kvk_nummers sigs profs limit) ∧
    (∀ k : String,
      (∀ s ∈ sigs, s.kvknummer = k → ∀ p ∈ profs, p.kvk_nummer = k →
        s.timestamp ≤ p.last_updated) →
      k ∉ get_outdated_kvk_nummers sigs profs limit) := by
  have hsub : ∀ k, k ∈ get_outdated_kvk_nummers sigs profs limit →
      isOutdatedKey sigs profs k := by
    intro k hk
    exact (mem_outdated_matching sigs profs k).mp
      (List.take_subset _ _ hk)
  refine ⟨hsub, ?_, ?_, ?_, ?_⟩
  · intro hlen k
    constructor
    · intro hk
      unfold get_outdated_kvk_nummers
      rw [List.take_of_length_le hlen]
      exact (mem_outdated_matching sigs profs k).mpr hk
    · exact hsub k
  · exact (List.take_sublist _ _).nodup (List.nodup_dedup _)
  · intro k hvest hk
    rcases hsub k hk with ⟨s, hs, hsk, hsv, _⟩
    exact hvest s hs hsk hsv
  · intro k hts hk
    rcases hsub k hk with ⟨s, hs, hsk, _, p, hp, hpk, hlt⟩
    exact absurd (hts s hs hsk p hp hpk) (by omega)

/-- Witness for C7 mirroring the repository's reader tests: a
vestiging-carrying newer signal does not mark the base profile outdated,
while a newer signal without vestigingsnummer does. -/
theorem get_outdated_kvk_nummers_correct_witness :
    "12345678" ∉ get_outdated_kvk_nummers
      [Signaal.mk "signal-1" "12345678" (some "000050074695") 200 "UPDATE"]
      [BasisProfielRow.mk "12345678" 100] 1000 ∧
    "12345678" ∈ get_outdated_kvk_nummers
      [Signaal.mk "signal-1" "12345678" none 200 "UPDATE"]
      [BasisProfielRow.mk "12345678" 100] 1000 := by
  constructor
  · exact (get_outdated_kvk_nummers_correct _ _ 1000).2.2.2.1 "12345678" (by decide)
  · refine ((get_outdated_kvk_nummers_correct
      [Signaal.mk "signal-1" "12345678" none 200 "UPDATE"]
      [BasisProfielRow.mk "12345678" 100] 1000).2.1 (by decide) "12345678").mp ?_
    exact ⟨Signaal.mk "signal-1" "12345678" none 200 "UPDATE", by decide, rfl, rfl,
      BasisProfielRow.mk "12345678" 100, by decide, rfl, by decide⟩

theorem rowKeys_upsertRow (rows : List BPRow) (r : BPRow) :
    rowKeys (upsertRow rows r) =
      if rows.any (fun x => x.kvk_nummer == r.kvk_nummer) then rowKeys rows
      else rowKeys rows ++ [r.kvk_nummer] := by
  unfold upsertRow rowKeys
  by_cases hany : rows.any (fun x => x.kvk_nummer == r.kvk_nummer) = true
  · rw [if_pos hany, if_pos hany, List.map_map]
    apply List.map_congr_left
    intro x _
    by_cases hx : x.kvk_nummer == r.kvk_nummer
    · simp only [Function.comp_apply, if_pos hx]
      rw [beq_iff_eq] at hx
      exact hx.symm
    · simp only [Function.comp_apply, if_neg hx]
  · rw [if_neg hany, if_neg hany, List.map_append]
    rfl

theorem nodup_keys_upsertRow (rows : List BPRow) (r : BPRow)
    (h : (rowKeys rows).Nodup) : (rowKeys (upsertRow rows r)).Nodup := by
  rw [rowKeys_upsertRow]
  by_cases hany : rows.any (fun x => x.kvk_nummer == r.kvk_nummer) = true
  · rw [if_pos hany]
    exact h
  · rw [if_neg hany]
    rw [List.nodup_append]
    refine ⟨h, List.nodup_singleton _, ?_⟩
    intro a ha hb
    rw [List.mem_singleton] at hb
    subst hb
    rw [Bool.not_eq_true, List.any_eq_false] at hany
    unfold rowKeys at ha
    rcases List.mem_map.mp ha with ⟨x, hx, hxa⟩
    have hne := hany x hx
    rw [hxa] at hne
    exact hne (beq_self_eq_true _)

theorem nodup_keys_upsertAll :
    ∀ (pending store : List BPRow), (rowKeys store).Nodup →
      (rowKeys (upsertAll store pending)).Nodup := by
  intro pending
  induction pending with
  | nil =>
    intro store h
    exact h
  | cons q rest ih =>
    intro store h
    rw [upsertAll, List.foldl_cons]
    exact ih (upsertRow store q) (nodup_keys_upsertRow store q h)

theorem getRow_upsertRow_self (rows : List BPRow) (r : BPRow) :
    getRow r.kvk_nummer (upsertRow rows r) = some r := by
  unfold getRow upsertRow
  by_cases hany : rows.any (fun x => x.kvk_nummer == r.kvk_nummer) = true
  · rw [if_pos hany, List.find?_map]
    have hpg : ((fun x => x.kvk_nummer == r.kvk_nummer) ∘
        (fun x => if x.kvk_nummer == r.kvk_nummer then r else x)) =
        (fun x => x.kvk_nummer == r.kvk_nummer) := by
      funext x
      by_cases hx : x.kvk_nummer == r.kvk_nummer
      · simp only [Function.comp_apply, if_pos hx]
        rw [hx, beq_self_eq_true]
      · simp only [Function.comp_apply, if_neg hx]
    rw [hpg]
    rcases List.any_eq_true.mp hany with ⟨x, hx, hpx⟩
    have hsome : (rows.find? (fun x => x.kvk_nummer == r.kvk_nummer)).isSome = true :=
      List.find?_isSome.mpr ⟨x, hx, hpx⟩
    rcases Option.isSome_iff_exists.mp hsome with ⟨x0, hx0⟩
    rw [hx0]
    have hpx0 := List.find?_some hx0
    simp only [Option.map_some']
    rw [if_pos hpx0]
  · rw [if_neg hany, List.find?_append]
    have hnone : rows.find? (fun x => x.kvk_nummer == r.kvk_nummer) = none := by
      rw [List.find?_eq_none]
      intro x hx
      rw [Bool.not_eq_true] at hany ⊢
      rw [List.any_eq_false] at hany
      have := hany x hx
      rw [Bool.not_eq_true] at this
      exact this
    rw [hnone, Option.none_or]
    exact List.find?_cons_of_pos _ (beq_self_eq_true _)

theorem getRow_upsertRow_other (rows : List BPRow) (r : BPRow) (k : String)
    (h : r.kvk_nummer ≠ k) : getRow k (upsertRow rows r) = getRow k rows := by
  unfold getRow upsertRow
  by_cases hany : rows.any (fun x => x.kvk_nummer == r.kvk_nummer) = true
  · rw [if_pos hany, List.find?_map]
    have hpg : ((fun x => x.kvk_nummer == k) ∘
        (fun x => if x.kvk_nummer == r.kvk_nummer then r else x)) =
        (fun x => x.kvk_nummer == k) := by
      funext x
      by_cases hx : x.kvk_nummer == r.kvk_nummer
      · simp only [Function.comp_apply, if_pos hx]
        rw [beq_iff_eq] at hx
        have h1 : (r.kvk_nummer == k) = false := beq_false_of_ne h
        have h2 : (x.kvk_nummer == k) = false := beq_false_of_ne (by rw [hx]; exact h)
        rw [h1, h2]
      · simp only [Function.comp_apply, if_neg hx]
    rw [hpg]
    cases hfind : rows.find? (fun x => x.kvk_nummer == k) with
    | none =>
      simp only [Option.map_none']
    | some x0 =>
      simp only [Option.map_some']
      have hpx0 := List.find?_some hfind
      rw [beq_iff_eq] at hpx0
      have hcond : (x0.kvk_nummer == r.kvk_nummer) = false := by
        rw [hpx0]
        exact beq_false_of_ne fun hc => h hc.symm
      rw [hcond]
      simp only [Bool.false_eq_true, if_false]
  · rw [if_neg hany, List.find?_append]
    have hlast : List.find? (fun x => x.kvk_nummer == k) [r] = none := by
      rw [List.find?_eq_none]
      intro x hx
      rw [List.mem_singleton] at hx
      subst hx
      rw [Bool.not_eq_true]
      exact beq_false_of_ne h
    rw [hlast, Option.or_none]

theorem getRow_upsertAll_not_mem :
    ∀ (pending store : List BPRow) (k : String), k ∉ rowKeys pending →
      getRow k (upsertAll store pending) = getRow k store := by
  intro pending
  induction pending with
  | nil =>
    intro store k _
    rfl
  | cons q rest ih =>
    intro store k hk
    have hq : q.kvk_nummer ≠ k := by
      intro hc
      exact hk (by rw [← hc]; exact List.mem_map_of_mem _ (List.mem_cons_self q rest))
    have hrest : k ∉ rowKeys rest := by
      intro hc
      exact hk (List.mem_map.mpr
        (by rcases List.mem_map.mp hc with ⟨x, hx, hxk⟩
            exact ⟨x, List.mem_cons_of_mem q hx, hxk⟩))
    rw [upsertAll, List.foldl_cons, ← upsertAll, ih (upsertRow store q) k hrest]
    exact getRow_upsertRow_other store q k hq

theorem getRow_upsertAll :
    ∀ (pending store : List BPRow) (k : String) (r : BPRow),
      (rowKeys pending).Nodup → getRow k pending = some r →
      getRow k (upsertAll store pending) = some r := by
  intro pending
  induction pending with
  | nil =>
    intro store k r _ hr
    exact absurd hr (by rw [getRow]; exact fun hc => Option.noConfusion hc)
  | cons q rest ih =>
    intro store k r hnd hr
    have hnd' := hnd
    rw [rowKeys, List.map_cons, List.nodup_cons] at hnd'
    rw [upsertAll, List.foldl_cons, ← upsertAll]
    by_cases hq : q.kvk_nummer = k
    · have : getRow k (q :: rest) = some q := by
        rw [getRow, List.find?_cons_of_pos _ (by rw [beq_iff_eq]; exact hq)]
      rw [this] at hr
      have hrq := Option.some.inj hr
      subst hrq
      have hrest : k ∉ rowKeys rest := by
        rw [← hq]
        exact hnd'.1
      rw [getRow_upsertAll_not_mem rest (upsertRow store q) k hrest]
      rw [← hq]
      exact getRow_upsertRow_self store q
    · have : getRow k (q :: rest) = getRow k rest := by
        rw [getRow, List.find?_cons_of_neg _ (by rw [beq_iff_eq]; exact hq), getRow]
      rw [this] at hr
      exact ih (upsertRow store q) k r hnd'.2 hr

theorem countP_key_le_one :
    ∀ (rows : List BPRow) (k : String), (rowKeys rows).Nodup →
      rows.countP (fun x => x.kvk_nummer == k) ≤ 1 := by
  intro rows
  induction rows with
  | nil =>
    intro k _
    simp [List.countP_nil]
  | cons q rest ih =>
    intro k hnd
    rw [rowKeys, List.map_cons, List.nodup_cons] at hnd
    rw [List.countP_cons]
    by_cases hq : (q.kvk_nummer == k) = true
    · rw [if_pos hq]
      have hzero : rest.countP (fun x => x.kvk_nummer == k) = 0 := by
        rw [List.countP_eq_zero]
        intro x hx hc
        rw [beq_iff_eq] at hc hq
        exact hnd.1 (by rw [hq, ← hc]; exact List.mem_map_of_mem _ hx)
      omega
    · rw [if_neg hq]
      have := ih k hnd.2
      omega

theorem countP_key_eq_one (rows : List BPRow) (k : String) (r : BPRow)
    (hnd : (rowKeys rows).Nodup) (hr : getRow k rows = some r) :
    rows.countP (fun x => x.kvk_nummer == k) = 1 := by
  have hle := countP_key_le_one rows k hnd
  have hmem : r ∈ rows := List.mem_of_find?_eq_some hr
  have hpr := List.find?_some hr
  have hpos : 0 < rows.countP (fun x => x.kvk_nummer == k) :=
    List.countP_pos_iff.mpr ⟨r, hmem, hpr⟩
  omega

theorem add_ok (store : List BPRow) (w : BasisProfielWriter) (p : List BPRow)
    (rec : BasisProfielDomain) (now : Int) (hs : w.session = some p) :
    BasisProfielWriter.add store w rec now =
      (if w.batch_size ≠ 0 ∧ (w.wcount + 1) % w.batch_size = 0 then
        Except.ok (upsertAll store (upsertRow p (toRow rec now)),
          ⟨w.batch_size, w.wcount + 1, some []⟩)
      else
        Except.ok (store,
          ⟨w.batch_size, w.wcount + 1, some (upsertRow p (toRow rec now))⟩)) := by
  simp only [BasisProfielWriter.add, hs]

theorem add_err (store : List BPRow) (w : BasisProfielWriter)
    (rec : BasisProfielDomain) (now : Int) (hs : w.session = none) :
    BasisProfielWriter.add store w rec now = Except.error "Session not initialized" ∧
    tryAdd store w rec now = (store, w, false) := by
  have h1 : BasisProfielWriter.add store w rec now =
      Except.error "Session not initialized" := by
    simp only [BasisProfielWriter.add, hs]
  exact ⟨h1, by simp only [tryAdd, h1]⟩

theorem add_no_commit (store : List BPRow) (w : BasisProfielWriter) (p : List BPRow)
    (rec : BasisProfielDomain) (now : Int) (hs : w.session = some p)
    (hlt : w.wcount + 1 < w.batch_size) :
    BasisProfielWriter.add store w rec now =
      Except.ok (store,
        ⟨w.batch_size, w.wcount + 1, some (upsertRow p (toRow rec now))⟩) := by
  rw [add_ok store w p rec now hs, if_neg]
  rintro ⟨h0, hmod⟩
  rw [Nat.mod_eq_of_lt (by omega)] at hmod
  omega

theorem addAll_count :
    ∀ (recs : List (BasisProfielDomain × Int)) (store : List BPRow)
      (w : BasisProfielWriter) (p : List BPRow), w.session = some p →
      (addAll store w recs).2.wcount = w.wcount + recs.length ∧
      (addAll store w recs).2.batch_size = w.batch_size ∧
      ∃ p', (addAll store w recs).2.session = some p' := by
  intro recs
  induction recs with
  | nil =>
    intro store w p hs
    exact ⟨rfl, rfl, p, hs⟩
  | cons rt rest ih =>
    intro store w p hs
    have hadd := add_ok store w p rt.1 rt.2 hs
    by_cases hcond : w.batch_size ≠ 0 ∧ (w.wcount + 1) % w.batch_size = 0
    · rw [if_pos hcond] at hadd
      have hstep : addAll store w (rt :: rest) =
          addAll (upsertAll store (upsertRow p (toRow rt.1 rt.2)))
            ⟨w.batch_size, w.wcount + 1, some []⟩ rest := by
        simp only [addAll, List.foldl_cons, tryAdd, hadd]
      rw [hstep]
      have := ih (upsertAll store (upsertRow p (toRow rt.1 rt.2)))
        ⟨w.batch_size, w.wcount + 1, some []⟩ [] rfl
      refine ⟨?_, this.2.1, this.2.2⟩
      rw [this.1]
      simp only [List.length_cons]
      omega
    · rw [if_neg hcond] at hadd
      have hstep : addAll store w (rt :: rest) =
          addAll store
            ⟨w.batch_size, w.wcount + 1, some (upsertRow p (toRow rt.1 rt.2))⟩ rest := by
        simp only [addAll, List.foldl_cons, tryAdd, hadd]
      rw [hstep]
      have := ih store
        ⟨w.batch_size, w.wcount + 1, some (upsertRow p (toRow rt.1 rt.2))⟩
        (upsertRow p (toRow rt.1 rt.2)) rfl
      refine ⟨?_, this.2.1, this.2.2⟩
      rw [this.1]
      simp only [List.length_cons]
      omega

theorem addAll_stable :
    ∀ (recs : List (BasisProfielDomain × Int)) (store : List BPRow)
      (w : BasisProfielWriter) (p : List BPRow),
      w.session = some p → w.wcount + recs.length < w.batch_size →
      (addAll store w recs).1 = store := by
  intro recs
  induction recs with
  | nil =>
    intro store w p _ _
    rfl
  | cons rt rest ih =>
    intro store w p hs hcnt
    simp only [List.length_cons] at hcnt
    have hlt : w.wcount + 1 < w.batch_size := by omega
    have hadd := add_no_commit store w p rt.1 rt.2 hs hlt
    have hstep : addAll store w (rt :: rest) =
        addAll store
          ⟨w.batch_size, w.wcount + 1, some (upsertRow p (toRow rt.1 rt.2))⟩ rest := by
      simp only [addAll, List.foldl_cons, tryAdd, hadd]
    rw [hstep]
    exact ih store ⟨w.batch_size, w.wcount + 1, some (upsertRow p (toRow rt.1 rt.2))⟩
      (upsertRow p (toRow rt.1 rt.2)) rfl (by simp only []; omega)

theorem exitScope_err_store (s : List BPRow) (w : BasisProfielWriter) :
    (exitScope s w true).1 = s := by
  rw [exitScope]
  cases w.session with
  | none => rfl
  | some p => rfl

/-- C2 counterexample: with the default batch size 1, after the first
add the counter equals the batch size (a batch commit does occur: the
staged batch is cleared), yet the counter is not reset to 0 — after a
second add it is 2, exceeding batch_size, exactly as the repository's
own test test_counter_increments_on_add asserts. -/
theorem writer_count_not_reset :
    (tryAdd [] (enterScope (mkWriter 1))
      (BasisProfielDomain.mk "12345678" (some "Test") (some "B.V.") none) 0).2.1.wcount
        = 1 ∧
    (tryAdd [] (enterScope (mkWriter 1))
      (BasisProfielDomain.mk "12345678" (some "Test") (some "B.V.") none) 0).2.1.session
        = some [] ∧
    (tryAdd
      (tryAdd [] (enterScope (mkWriter 1))
        (BasisProfielDomain.mk "12345678" (some "Test") (some "B.V.") none) 0).1
      (tryAdd [] (enterScope (mkWriter 1))
        (BasisProfielDomain.mk "12345678" (some "Test") (some "B.V.") none) 0).2.1
      (BasisProfielDomain.mk "12345678" (some "Test") (some "B.V.") none) 0).2.1.wcount
        = 2 ∧
    ¬((tryAdd
      (tryAdd [] (enterScope (mkWriter 1))
        (BasisProfielDomain.mk "12345678" (some "Test") (some "B.V.") none) 0).1
      (tryAdd [] (enterScope (mkWriter 1))
        (BasisProfielDomain.mk "12345678" (some "Test") (some "B.V.") none) 0).2.1
      (BasisProfielDomain.mk "12345678" (some "Test") (some "B.V.") none) 0).2.1.wcount
        ≤ (mkWriter 1).batch_size) := by
  decide

/-- C2 (amended): inside an active scope every add increments the running
counter by exactly one and never resets it (after n adds from a fresh
scope the counter is n, which can exceed batch_size); each time the
counter reaches a positive multiple of batch_size the staged batch is
committed to the store and the staged set is cleared, otherwise the
store is untouched and the record remains staged. -/
theorem writer_batch_commit_correct (store pending : List BPRow)
    (w : BasisProfielWriter) (rec : BasisProfielDomain) (now : Int)
    (recs : List (BasisProfielDomain × Int))
    (hsess : w.session = some pending) (hB : 1 ≤ w.batch_size) :
    (∃ s' w', BasisProfielWriter.add store w rec now = Except.ok (s', w') ∧
      w'.wcount = w.wcount + 1 ∧ w'.batch_size = w.batch_size ∧
      ((w.wcount + 1) % w.batch_size = 0 →
        s' = upsertAll store (upsertRow pending (toRow rec now)) ∧
        w'.session = some []) ∧
      ((w.wcount + 1) % w.batch_size ≠ 0 →
        s' = store ∧ w'.session = some (upsertRow pending (toRow rec now)))) ∧
    (addAll store (enterScope w) recs).2.wcount = recs.length := by
  constructor
  · have hadd := add_ok store w pending rec now hsess
    by_cases hmod : (w.wcount + 1) % w.batch_size = 0
    · rw [if_pos ⟨by omega, hmod⟩] at hadd
      exact ⟨_, _, hadd, rfl, rfl, fun _ => ⟨rfl, rfl⟩, fun hc => absurd hmod hc⟩
    · rw [if_neg (by rintro ⟨_, hc⟩; exact hmod hc)] at hadd
      exact ⟨_, _, hadd, rfl, rfl, fun hc => absurd hc hmod, fun _ => ⟨rfl, rfl⟩⟩
  · have := addAll_count recs store (enterScope w) [] rfl
    rw [this.1]
    simp [enterScope]

/-- Witness for C2 (amended): batch size 2, a commit-triggering add and
three adds from a fresh scope leaving the counter at 3. -/
theorem writer_batch_commit_correct_witness :
    (∃ s' w', BasisProfielWriter.add []
        (BasisProfielWriter.mk 2 1 (some []))
        (BasisProfielDomain.mk "12345678" (some "Test") (some "B.V.") none) 0 =
        Except.ok (s', w') ∧
      w'.wcount = 1 + 1 ∧ w'.batch_size = 2 ∧
      ((1 + 1) % 2 = 0 →
        s' = upsertAll []
          (upsertRow []
            (toRow (BasisProfielDomain.mk "12345678" (some "Test") (some "B.V.") none) 0)) ∧
        w'.session = some []) ∧
      ((1 + 1) % 2 ≠ 0 →
        s' = [] ∧
        w'.session = some
          (upsertRow []
            (toRow (BasisProfielDomain.mk "12345678" (some "Test") (some "B.V.") none) 0)))) ∧
    (addAll [] (enterScope (BasisProfielWriter.mk 2 1 (some [])))
      [(BasisProfielDomain.mk "12345678" (some "Test") (some "B.V.") none, 0),
        (BasisProfielDomain.mk "12345678" (some "A") none none, 1),
        (BasisProfielDomain.mk "22222222" (some "B") none none, 2)]).2.wcount = 3 := by
  exact writer_batch_commit_correct [] [] (BasisProfielWriter.mk 2 1 (some []))
    (BasisProfielDomain.mk "12345678" (some "Test") (some "B.V.") none) 0
    [(BasisProfielDomain.mk "12345678" (some "Test") (some "B.V.") none, 0),
      (BasisProfielDomain.mk "12345678" (some "A") none none, 1),
      (BasisProfielDomain.mk "22222222" (some "B") none none, 2)]
    rfl (by decide)

/-- C5: if an exception propagates out of the writer's scope after a
sequence of adds and before any flush, with batch_size exceeding the
number of adds so that no automatic batch commit occurred, the store is
left unchanged: the adds never touched it and the error exit rolls the
staged rows back. -/
theorem scope_rollback_on_error (store : List BPRow) (B : Nat)
    (recs : List (BasisProfielDomain × Int)) (h : recs.length < B) :
    (addAll store (enterScope (mkWriter B)) recs).1 = store ∧
    (exitScope (addAll store (enterScope (mkWriter B)) recs).1
      (addAll store (enterScope (mkWriter B)) recs).2 true).1 = store := by
  have hstable := addAll_stable recs store (enterScope (mkWriter B)) [] rfl
    (by show 0 + recs.length < B; omega)
  refine ⟨hstable, ?_⟩
  rw [exitScope_err_store, hstable]

/-- Witness for C5: one add with batch size 10, then an error exit,
leaves an empty store empty. -/
theorem scope_rollback_on_error_witness :
    (addAll [] (enterScope (mkWriter 10))
      [(BasisProfielDomain.mk "12345678" (some "Test") (some "B.V.") none, 5)]).1 = [] ∧
    (exitScope
      (addAll [] (enterScope (mkWriter 10))
        [(BasisProfielDomain.mk "12345678" (some "Test") (some "B.V.") none, 5)]).1
      (addAll [] (enterScope (mkWriter 10))
        [(BasisProfielDomain.mk "12345678" (some "Test") (some "B.V.") none, 5)]).2
      true).1 = [] := by
  exact scope_rollback_on_error [] 10
    [(BasisProfielDomain.mk "12345678" (some "Test") (some "B.V.") none, 5)] (by decide)

/-- C6: adding a record for a key that is already staged or previously
committed leaves exactly one row for that key in the effective store
(the rows a flush or clean exit would leave), carrying the fields of the
latest add and a last_updated stamped to the add's time, not taken from
the source data. -/
theorem add_upsert_semantics (store pending : List BPRow) (w : BasisProfielWriter)
    (rec : BasisProfielDomain) (now : Int)
    (hsess : w.session = some pending)
    (hstore : (rowKeys store).Nodup) (hpend : (rowKeys pending).Nodup) :
    ∃ s' w', BasisProfielWriter.add store w rec now = Except.ok (s', w') ∧
      getRow rec.kvk_nummer (effectiveRows s' w') = some (toRow rec now) ∧
      (effectiveRows s' w').countP (fun x => x.kvk_nummer == rec.kvk_nummer) = 1 := by
  have hpend' : (rowKeys (upsertRow pending (toRow rec now))).Nodup :=
    nodup_keys_upsertRow pending _ hpend
  have hfind : getRow rec.kvk_nummer (upsertRow pending (toRow rec now)) =
      some (toRow rec now) := getRow_upsertRow_self pending (toRow rec now)
  have hcore1 : getRow rec.kvk_nummer
      (upsertAll store (upsertRow pending (toRow rec now))) = some (toRow rec now) :=
    getRow_upsertAll _ store _ _ hpend' hfind
  have hnodupAll : (rowKeys (upsertAll store (upsertRow pending (toRow rec now)))).Nodup :=
    nodup_keys_upsertAll _ store hstore
  have hcore2 : (upsertAll store (upsertRow pending (toRow rec now))).countP
      (fun x => x.kvk_nummer == rec.kvk_nummer) = 1 :=
    countP_key_eq_one _ _ _ hnodupAll hcore1
  have hadd := add_ok store w pending rec now hsess
  by_cases hcond : w.batch_size ≠ 0 ∧ (w.wcount + 1) % w.batch_size = 0
  · rw [if_pos hcond] at hadd
    exact ⟨_, _, hadd, hcore1, hcore2⟩
  · rw [if_neg hcond] at hadd
    exact ⟨_, _, hadd, hcore1, hcore2⟩

/-- Witness for C6: re-adding key 12345678 over a committed row with old
fields leaves one row carrying the new fields, stamped at time 100. -/
theorem add_upsert_semantics_witness :
    ∃ s' w', BasisProfielWriter.add
        [BPRow.mk "12345678" (some "Old") (some "B.V.") none 50]
        (BasisProfielWriter.mk 10 0 (some []))
        (BasisProfielDomain.mk "12345678" (some "Updated Company B.V.") (some "B.V.")
          (some 10)) 100 =
      Except.ok (s', w') ∧
      getRow "12345678" (effectiveRows s' w') =
        some (toRow (BasisProfielDomain.mk "12345678" (some "Updated Company B.V.")
          (some "B.V.") (some 10)) 100) ∧
      (effectiveRows s' w').countP (fun x => x.kvk_nummer == "12345678") = 1 := by
  exact add_upsert_semantics
    [BPRow.mk "12345678" (some "Old") (some "B.V.") none 50]
    [] (BasisProfielWriter.mk 10 0 (some []))
    (BasisProfielDomain.mk "12345678" (some "Updated Company B.V.") (some "B.V.")
      (some 10)) 100 rfl (by decide) (by decide)

/-- C10: add outside an active acquisition (fresh writer, or after any
scope exit) fails with the uninitialized-session error and leaves the
store unchanged; after a scope exits the writer holds no session; the
same instance can be re-acquired with a fresh empty staged set, and the
rows of the store left by a clean exit are exactly the rows the new
scope sees. -/
theorem writer_session_lifecycle (store : List BPRow) (w : BasisProfielWriter)
    (rec : BasisProfielDomain) (now : Int) (err : Bool) :
    (w.session = none →
      BasisProfielWriter.add store w rec now = Except.error "Session not initialized" ∧
      tryAdd store w rec now = (store, w, false)) ∧
    ((exitScope store w err).2).session = none ∧
    BasisProfielWriter.add (exitScope store w err).1 ((exitScope store w err).2) rec now =
      Except.error "Session not initialized" ∧
    (enterScope ((exitScope store w err).2)).session = some [] ∧
    effectiveRows (exitScope store w false).1 (enterScope ((exitScope store w false).2)) =
      (exitScope store w false).1 := by
  have hexit : ∀ e : Bool, ((exitScope store w e).2).session = none := by
    intro e
    rw [exitScope]
    cases hs : w.session with
    | none => exact hs
    | some p =>
      cases e with
      | false => rfl
      | true => rfl
  refine ⟨fun hs => add_err store w rec now hs, hexit err, ?_, ?_, ?_⟩
  · exact (add_err _ _ rec now (hexit err)).1
  · rfl
  · rfl

/-- Witness for C10 at a fresh default writer and a scope over a
one-row store. -/
theorem writer_session_lifecycle_witness :
    tryAdd [] (mkWriter 1)
      (BasisProfielDomain.mk "12345678" (some "Test") (some "B.V.") none) 0 =
      ([], mkWriter 1, false) ∧
    ((exitScope [BPRow.mk "12345678" (some "Test") (some "B.V.") none 5]
      (BasisProfielWriter.mk 1 1 (some [])) false).2).session = none ∧
    (enterScope ((exitScope [BPRow.mk "12345678" (some "Test") (some "B.V.") none 5]
      (BasisProfielWriter.mk 1 1 (some [])) false).2)).session = some [] := by
  have h1 := writer_session_lifecycle [] (mkWriter 1)
    (BasisProfielDomain.mk "12345678" (some "Test") (some "B.V.") none) 0 false
  have h2 := writer_session_lifecycle [BPRow.mk "12345678" (some "Test") (some "B.V.") none 5]
    (BasisProfielWriter.mk 1 1 (some []))
    (BasisProfielDomain.mk "12345678" (some "Test") (some "B.V.") none) 0 false
  exact ⟨(h1.1 rfl).2, h2.2.1, h2.2.2.2.1⟩

theorem isSpaceChar_toDigitChar (n : Nat) : isSpaceChar (toDigitChar n) = false := by
  unfold toDigitChar
  split <;> decide

theorem isDigit_toDigitChar (n : Nat) (h : n ≤ 9) : (toDigitChar n).isDigit = true := by
  interval_cases n <;> decide

theorem digitVal_toDigitChar (n : Nat) (h : n ≤ 9) : digitVal (toDigitChar n) = n := by
  interval_cases n <;> decide

theorem dropWhile_eq_self_of_all (p : Char → Bool) (l : List Char)
    (h : ∀ c ∈ l, p c = false) : l.dropWhile p = l := by
  cases l with
  | nil => rfl
  | cons a rest =>
    rw [List.dropWhile_cons, h a (List.mem_cons_self a rest)]
    simp

theorem trimChars_eq_self (l : List Char) (h : ∀ c ∈ l, isSpaceChar c = false) :
    trimChars l = l := by
  unfold trimChars
  rw [dropWhile_eq_self_of_all _ l h]
  rw [dropWhile_eq_self_of_all _ l.reverse (fun c hc => h c (List.mem_reverse.mp hc))]
  exact List.reverse_reverse l

theorem daysInMonth_le (y m : Nat) : daysInMonth y m ≤ 31 := by
  unfold daysInMonth
  split_ifs <;> omega

theorem validDate_bounds (y m d : Nat) (hv : validDate y m d = true) :
    1 ≤ y ∧ y ≤ 9999 ∧ 1 ≤ m ∧ m ≤ 12 ∧ 1 ≤ d ∧ d ≤ 31 := by
  rw [validDate, decide_eq_true_eq] at hv
  exact ⟨hv.1, hv.2.1, hv.2.2.1, hv.2.2.2.1, hv.2.2.2.2.1,
    le_trans hv.2.2.2.2.2 (daysInMonth_le y m)⟩

theorem parseChars_cons10 (d1 d2 c1 m1 m2 c2 y1 y2 y3 y4 : Char) :
    parseChars [d1, d2, c1, m1, m2, c2, y1, y2, y3, y4] =
      if c1 = '-' ∧ c2 = '-' ∧
          (d1.isDigit && d2.isDigit && m1.isDigit && m2.isDigit &&
            y1.isDigit && y2.isDigit && y3.isDigit && y4.isDigit) = true then
        (if validDate
            (1000 * digitVal y1 + 100 * digitVal y2 + 10 * digitVal y3 + digitVal y4)
            (10 * digitVal m1 + digitVal m2)
            (10 * digitVal d1 + digitVal d2) then
          some (KvkDate.mk
            (1000 * digitVal y1 + 100 * digitVal y2 + 10 * digitVal y3 + digitVal y4)
            (10 * digitVal m1 + digitVal m2)
            (10 * digitVal d1 + digitVal d2))
        else none)
      else none := rfl

theorem parseChars_cons8 (y1 y2 y3 y4 m1 m2 d1 d2 : Char) :
    parseChars [y1, y2, y3, y4, m1, m2, d1, d2] =
      if (y1.isDigit && y2.isDigit && y3.isDigit && y4.isDigit &&
          m1.isDigit && m2.isDigit && d1.isDigit && d2.isDigit) = true then
        (if validDate
            (1000 * digitVal y1 + 100 * digitVal y2 + 10 * digitVal y3 + digitVal y4)
            (if 10 * digitVal m1 + digitVal m2 = 0 then 1 else 10 * digitVal m1 + digitVal m2)
            (if 10 * digitVal d1 + digitVal d2 = 0 then 1 else 10 * digitVal d1 + digitVal d2)
          then
          some (KvkDate.mk
            (1000 * digitVal y1 + 100 * digitVal y2 + 10 * digitVal y3 + digitVal y4)
            (if 10 * digitVal m1 + digitVal m2 = 0 then 1 else 10 * digitVal m1 + digitVal m2)
            (if 10 * digitVal d1 + digitVal d2 = 0 then 1 else 10 * digitVal d1 + digitVal d2))
        else none)
      else none := rfl

theorem parse_fmtDDMMYYYY (y m d : Nat) (hv : validDate y m d = true) :
    parse_kvk_datum (some (fmtDDMMYYYY y m d)) = some (KvkDate.mk y m d) := by
  obtain ⟨hy1, hy2, hm1, hm2, hd1, hd2⟩ := validDate_bounds y m d hv
  have hlist : (fmtDDMMYYYY y m d).data =
      [toDigitChar (d / 10), toDigitChar (d % 10), '-',
        toDigitChar (m / 10), toDigitChar (m % 10), '-',
        toDigitChar (y / 1000), toDigitChar (y / 100 % 10),
        toDigitChar (y / 10 % 10), toDigitChar (y % 10)] := by
    simp [fmtDDMMYYYY, pad2, pad4]
  have htrim : trimChars (fmtDDMMYYYY y m d).data = (fmtDDMMYYYY y m d).data := by
    apply trimChars_eq_self
    rw [hlist]
    intro c hc
    simp only [List.mem_cons, List.not_mem_nil, or_false] at hc
    rcases hc with rfl | rfl | rfl | rfl | rfl | rfl | rfl | rfl | rfl | rfl
    · exact isSpaceChar_toDigitChar _
    · exact isSpaceChar_toDigitChar _
    · decide
    · exact isSpaceChar_toDigitChar _
    · exact isSpaceChar_toDigitChar _
    · decide
    · exact isSpaceChar_toDigitChar _
    · exact isSpaceChar_toDigitChar _
    · exact isSpaceChar_toDigitChar _
    · exact isSpaceChar_toDigitChar _
  have hcond : ¬((fmtDDMMYYYY y m d).data = [] ∨ (fmtDDMMYYYY y m d).data = "None".data) := by
    rw [hlist]
    rintro (hc | hc)
    · exact List.noConfusion hc
    · have hlen := congrArg List.length hc
      have h4 : ("None".data).length = 4 := by decide
      rw [h4] at hlen
      simp only [List.length_cons, List.length_nil] at hlen
      omega
  have ed : 10 * digitVal (toDigitChar (d / 10)) + digitVal (toDigitChar (d % 10)) = d := by
    rw [digitVal_toDigitChar _ (by omega), digitVal_toDigitChar _ (by omega)]
    omega
  have em : 10 * digitVal (toDigitChar (m / 10)) + digitVal (toDigitChar (m % 10)) = m := by
    rw [digitVal_toDigitChar _ (by omega), digitVal_toDigitChar _ (by omega)]
    omega
  have ey : 1000 * digitVal (toDigitChar (y / 1000)) +
      100 * digitVal (toDigitChar (y / 100 % 10)) +
      10 * digitVal (toDigitChar (y / 10 % 10)) + digitVal (toDigitChar (y % 10)) = y := by
    rw [digitVal_toDigitChar _ (by omega), digitVal_toDigitChar _ (by omega),
      digitVal_toDigitChar _ (by omega), digitVal_toDigitChar _ (by omega)]
    omega
  simp only [parse_kvk_datum]
  rw [htrim, if_neg hcond, hlist, parseChars_cons10]
  rw [if_pos ?hdig]
  case hdig =>
    refine ⟨rfl, rfl, ?_⟩
    rw [isDigit_toDigitChar _ (by omega), isDigit_toDigitChar _ (by omega),
      isDigit_toDigitChar _ (by omega), isDigit_toDigitChar _ (by omega),
      isDigit_toDigitChar _ (by omega), isDigit_toDigitChar _ (by omega),
      isDigit_toDigitChar _ (by omega), isDigit_toDigitChar _ (by omega)]
    rfl
  rw [ed, em, ey, if_pos hv]

theorem parse_fmtYYYYMMDD (y m d : Nat) (hv : validDate y m d = true) :
    parse_kvk_datum (some (fmtYYYYMMDD y m d)) = some (KvkDate.mk y m d) := by
  obtain ⟨hy1, hy2, hm1, hm2, hd1, hd2⟩ := validDate_bounds y m d hv
  have hlist : (fmtYYYYMMDD y m d).data =
      [toDigitChar (y / 1000), toDigitChar (y / 100 % 10),
        toDigitChar (y / 10 % 10), toDigitChar (y % 10),
        toDigitChar (m / 10), toDigitChar (m % 10),
        toDigitChar (d / 10), toDigitChar (d % 10)] := by
    simp [fmtYYYYMMDD, pad2, pad4]
  have htrim : trimChars (fmtYYYYMMDD y m d).data = (fmtYYYYMMDD y m d).data := by
    apply trimChars_eq_self
    rw [hlist]
    intro c hc
    simp only [List.mem_cons, List.not_mem_nil, or_false] at hc
    rcases hc with rfl | rfl | rfl | rfl | rfl | rfl | rfl | rfl
    all_goals exact isSpaceChar_toDigitChar _
  have hcond : ¬((fmtYYYYMMDD y m d).data = [] ∨ (fmtYYYYMMDD y m d).data = "None".data) := by
    rw [hlist]
    rintro (hc | hc)
    · exact List.noConfusion hc
    · have hlen := congrArg List.length hc
      have h4 : ("None".data).length = 4 := by decide
      rw [h4] at hlen
      simp only [List.length_cons, List.length_nil] at hlen
      omega
  have ed : 10 * digitVal (toDigitChar (d / 10)) + digitVal (toDigitChar (d % 10)) = d := by
    rw [digitVal_toDigitChar _ (by omega), digitVal_toDigitChar _ (by omega)]
    omega
  have em : 10 * digitVal (toDigitChar (m / 10)) + digitVal (toDigitChar (m % 10)) = m := by
    rw [digitVal_toDigitChar _ (by omega), digitVal_toDigitChar _ (by omega)]
    omega
  have ey : 1000 * digitVal (toDigitChar (y / 1000)) +
      100 * digitVal (toDigitChar (y / 100 % 10)) +
      10 * digitVal (toDigitChar (y / 10 % 10)) + digitVal (toDigitChar (y % 10)) = y := by
    rw [digitVal_toDigitChar _ (by omega), digitVal_toDigitChar _ (by omega),
      digitVal_toDigitChar _ (by omega), digitVal_toDigitChar _ (by omega)]
    omega
  simp only [parse_kvk_datum]
  rw [htrim, if_neg hcond, hlist, parseChars_cons8]
  rw [if_pos ?hdig]
  case hdig =>
    rw [isDigit_toDigitChar _ (by omega), isDigit_toDigitChar _ (by omega),
      isDigit_toDigitChar _ (by omega), isDigit_toDigitChar _ (by omega),
      isDigit_toDigitChar _ (by omega), isDigit_toDigitChar _ (by omega),
      isDigit_toDigitChar _ (by omega), isDigit_toDigitChar _ (by omega)]
    rfl
  have hm0 : (if m = 0 then 1 else m) = m := if_neg (by omega)
  have hd0 : (if d = 0 then 1 else d) = d := if_neg (by omega)
  rw [ed, em, ey, hm0, hd0, if_pos hv]

/-- C9: "20200100" parses to January 1 2020 (unknown day defaulted to
1); the all-zero input "00000000" yields no value from both the
formatter and the parser; and every valid calendar date parses to the
same date value from its DD-MM-YYYY and its YYYYMMDD rendering. -/
theorem date_parsing_correct :
    parse_kvk_datum (some "20200100") = some (KvkDate.mk 2020 1 1) ∧
    formatteer_datum (some "00000000") = none ∧
    parse_kvk_datum (some "00000000") = none ∧
    (∀ y m d : Nat, validDate y m d = true →
      parse_kvk_datum (some (fmtDDMMYYYY y m d)) = some (KvkDate.mk y m d) ∧
      parse_kvk_datum (some (fmtYYYYMMDD y m d)) = some (KvkDate.mk y m d)) := by
  refine ⟨by decide, by decide, by decide, ?_⟩
  intro y m d hv
  exact ⟨parse_fmtDDMMYYYY y m d hv, parse_fmtYYYYMMDD y m d hv⟩

/-- Witness for C9: March 15 2024 rendered both ways parses back to the
same date, matching the repository's parse tests. -/
theorem date_parsing_correct_witness :
    validDate 2024 3 15 = true ∧
    fmtDDMMYYYY 2024 3 15 = "15-03-2024" ∧
    fmtYYYYMMDD 2024 3 15 = "20240315" ∧
    parse_kvk_datum (some "15-03-2024") = some (KvkDate.mk 2024 3 15) ∧
    parse_kvk_datum (some "20240315") = some (KvkDate.mk 2024 3 15) := by
  have h := date_parsing_correct.2.2.2 2024 3 15 (by decide)
  refine ⟨by decide, by decide, by decide, ?_, ?_⟩
  · rw [← (by decide : fmtDDMMYYYY 2024 3 15 = "15-03-2024")]
    exact h.1
  · rw [← (by decide : fmtYYYYMMDD 2024 3 15 = "20240315")]
    exact h.2

end KvkConnect
